import Mathlib

/-!
Verification of the chat server in `src/chat/rust/server/src/main.rs`.

The per-connection transport (`EncryptedStream`), the connection worker
(`handle_stream`) and the session coordinator (`ChatServer`) are embedded
as pure Lean functions.  Stateful I/O is made explicit: socket reads and
writes become parameters describing their outcomes, and everything the
server writes back to clients becomes an explicit list of effects.

The `crypto_utils` crate (`PrimeDiffieHellman`) is not part of the
sources of the repository; its pieces are modelled from the spec and are marked
as such in their doc comments.
-/

set_option autoImplicit false

namespace ChatSpec

/-- Network addresses (`SocketAddr`) are abstracted to naturals. -/
abbrev Addr := Nat

/-! ### UTF-8 decoding, modelling the Rust function `std::str::from_utf8`

`recv` decodes the decrypted bytes with `str::from_utf8`, which validates
UTF-8 (RFC 3629: continuation ranges, no overlong forms, no surrogates,
maximum U+10FFFF).  `decode1` consumes one scalar value from the front of
a byte list; `utf8Decode` folds it over the whole list, with the list
length as structural fuel. -/

/-- Is `b` a UTF-8 continuation byte (`0x80..=0xBF`)? -/
def isCont (b : Nat) : Bool := 0x80 ≤ b && b ≤ 0xBF

/-- Decode one UTF-8 scalar value from the front of a byte list, returning
the decoded character and the remaining bytes, or `none` on invalid input. -/
def decode1 : List Nat → Option (Char × List Nat)
  | [] => none
  | b :: bs =>
    if b ≤ 0x7F then some (Char.ofNat b, bs)
    else if b ≤ 0xC1 then none
    else if b ≤ 0xDF then
      match bs with
      | c1 :: rest =>
        if isCont c1 then some (Char.ofNat ((b - 0xC0) * 0x40 + (c1 - 0x80)), rest)
        else none
      | [] => none
    else if b ≤ 0xEF then
      match bs with
      | c1 :: c2 :: rest =>
        if (if b = 0xE0 then 0xA0 ≤ c1 && c1 ≤ 0xBF
            else if b = 0xED then 0x80 ≤ c1 && c1 ≤ 0x9F
            else isCont c1) && isCont c2 then
          some (Char.ofNat ((b - 0xE0) * 0x1000 + (c1 - 0x80) * 0x40 + (c2 - 0x80)), rest)
        else none
      | _ => none
    else if b ≤ 0xF4 then
      match bs with
      | c1 :: c2 :: c3 :: rest =>
        if (if b = 0xF0 then 0x90 ≤ c1 && c1 ≤ 0xBF
            else if b = 0xF4 then 0x80 ≤ c1 && c1 ≤ 0x8F
            else isCont c1) && isCont c2 && isCont c3 then
          some (Char.ofNat
            ((b - 0xF0) * 0x40000 + (c1 - 0x80) * 0x1000 + (c2 - 0x80) * 0x40 + (c3 - 0x80)), rest)
        else none
      | _ => none
    else none

/-- Fuelled UTF-8 decoding loop; the fuel is an upper bound on the number
of characters, and `decode1` consumes at least one byte per character. -/
def utf8DecodeAux : Nat → List Nat → Option (List Char)
  | _, [] => some []
  | 0, _ :: _ => none
  | fuel + 1, b :: bs =>
    match decode1 (b :: bs) with
    | none => none
    | some (c, rest) => (utf8DecodeAux fuel rest).map (c :: ·)

/-- Decode a byte list as UTF-8 text, as the Rust function `str::from_utf8`. -/
def utf8Decode (l : List Nat) : Option (List Char) :=
  utf8DecodeAux l.length l

/-! ### Whitespace and trimming, modelling the Rust function `str::trim`

the Rust predicate `char::is_whitespace` tests the Unicode `White_Space` property;
`str::trim` removes such characters from both ends of the string. -/

/-- the Rust predicate `char::is_whitespace`: the Unicode `White_Space` code points. -/
def rustIsWhitespace (c : Char) : Bool :=
  let v := c.toNat
  (0x09 ≤ v && v ≤ 0x0D) || v == 0x20 || v == 0x85 || v == 0xA0 || v == 0x1680 ||
    (0x2000 ≤ v && v ≤ 0x200A) || v == 0x2028 || v == 0x2029 || v == 0x202F ||
    v == 0x205F || v == 0x3000

/-- the Rust function `str::trim_start` on the character list. -/
def trimStart (cs : List Char) : List Char := cs.dropWhile rustIsWhitespace

/-- the Rust function `str::trim_end` on the character list. -/
def trimEnd (cs : List Char) : List Char := (cs.reverse.dropWhile rustIsWhitespace).reverse

/-- the Rust function `str::trim`: whitespace removed from both ends. -/
def rustTrim (cs : List Char) : List Char := trimEnd (trimStart cs)

/-! ### The cipher and key exchange, modelled from the spec

The `crypto_utils` crate is not under the sources of the repository.  Modelled
from the spec: "Encryption is a deterministic, symmetric, unauthenticated
transform keyed by the shared secret"; each frame is a fixed 16-byte block
holding the encrypted form of up to 16 plaintext bytes, longer payloads
are truncated, and decrypting an encrypted frame returns the plaintext
padded to the frame width with trailing whitespace (so that the round-trip-modulo-trailing-whitespace property of the spec can hold). -/

/-- The fixed frame width: 16 bytes (`// using 16 byte buffer`). -/
def frameWidth : Nat := 16

/-- Modelled from the spec: the fixed prime modulus of the Diffie-Hellman
domain parameters (`crypto_utils` is not in the sources; any fixed prime
plays the role). -/
def dhP : Nat := 251

/-- Modelled from the spec: the fixed generator of the Diffie-Hellman
domain parameters. -/
def dhG : Nat := 11

/-- Modelled from the spec: `crypto.deserialize` reads a public value from
the fixed-width byte block (little-endian base-256 here). -/
def deserialize (bytes : List Nat) : Nat :=
  bytes.foldr (fun b acc => b + 256 * acc) 0

/-- Modelled from the spec: the shared secret is the public value of the peer raised to the local private scalar under the domain modulus. -/
def dhShared (otherPub priv : Nat) : Nat := otherPub ^ priv % dhP

/-- Modelled from the spec: `crypto.encrypt` — pad the (truncated)
plaintext with trailing spaces to the frame width, then apply a
deterministic symmetric keyed byte transform. -/
def encrypt (key : Nat) (msg : List Nat) : List Nat :=
  (msg.take frameWidth ++ List.replicate (frameWidth - msg.length) 0x20).map
    (fun b => (b + key) % 256)

/-- Modelled from the spec: `crypto.decrypt`, the inverse byte transform. -/
def decrypt (key : Nat) (c : List Nat) : List Nat :=
  c.map (fun b => (b + (256 - key % 256)) % 256)

/-! ### `EncryptedStream` -/

/-- The outcomes of the two socket operations inside
`EncryptedStream::establish`: `socket.write(&pubkey.to_vec())` returns the
number of bytes written (or an I/O error), and `socket.read(&mut data)`
returns the number of bytes read together with the bytes that were placed
into the front of the 16-byte buffer (or an I/O error). -/
structure HandshakeOutcome where
  writeResult : Except Unit Nat
  readResult : Except Unit (Nat × List Nat)

/-- `EncryptedStream::establish`: write the local public value, read the
public value of the peer into a zero-initialised 16-byte buffer, and derive the
shared secret.  The returned `Nat` is the derived shared secret held by
the `crypto` of the established stream.  Note the source checks only the
`io::Result` of `write` and `read` — the byte counts they return are
ignored, so a short transfer leaves the rest of the buffer zeroed. -/
def establish (priv : Nat) (io : HandshakeOutcome) : Except Unit Nat :=
  match io.writeResult with
  | .error e => .error e
  | .ok _ =>
    match io.readResult with
    | .error e => .error e
    | .ok (n, peer) =>
      let filled := peer.take n
      let data := filled ++ List.replicate (frameWidth - filled.length) 0
      .ok (dhShared (deserialize data) priv)

/-- `EncryptedStream::send`: encrypt the message bytes and write the frame.
The value written to the socket. -/
def sendFrame (key : Nat) (msgBytes : List Nat) : List Nat := encrypt key msgBytes

/-- `EncryptedStream::recv` after `receive_raw` produced the 16-byte block
`raw`: decrypt, decode as UTF-8 (`None` when invalid), then `str::trim`. -/
def recvFrame (key : Nat) (raw : List Nat) : Option (List Char) :=
  (utf8Decode (decrypt key raw)).map rustTrim

/-- `send` on one side followed by `recv` on the other, over the same
shared secret. -/
def sendRecv (key : Nat) (msgBytes : List Nat) : Option (List Char) :=
  recvFrame key (sendFrame key msgBytes)

/-! ### Events and the connection worker -/

/-- The `Message` type of the coordinator (the `Connected` payload — the cloned
stream — is irrelevant to the registry logic and omitted). -/
inductive Message where
  | connected
  | disconnected
  | text (t : String)
deriving DecidableEq, Repr

/-- One outcome of `enc_stream.recv()` inside the read loop of the worker:
`Ok(Some(txt))`, `Ok(None)` (undecodable frame), or `Err(_)`. -/
inductive RecvOutcome where
  | ok (t : String)
  | nothing
  | ioErr
deriving DecidableEq, Repr

/-- The read loop of `handle_stream`, run over a trace of `recv` outcomes:
`Ok(Some(txt))` sends `Text(txt)`, `Ok(None)` is ignored (`continue`), and
`Err(_)` sends `Disconnected`.  The loop body contains no `break`, so the
loop keeps consuming outcomes after an error. -/
def workerLoopEmits : List RecvOutcome → List Message
  | [] => []
  | .ok t :: rest => .text t :: workerLoopEmits rest
  | .nothing :: rest => workerLoopEmits rest
  | .ioErr :: rest => .disconnected :: workerLoopEmits rest

/-- `handle_stream` after a successful handshake: one `Connected` event,
then whatever the read loop emits. -/
def handleStreamEmits (outcomes : List RecvOutcome) : List Message :=
  .connected :: workerLoopEmits outcomes

/-! ### The session coordinator (`ChatServer`) -/

/-- A registered session (`Client`): its optional username.  (The write
handle is represented implicitly: writes appear as effects.) -/
structure Client where
  username : Option String
deriving DecidableEq, Repr

/-- The registry `HashMap<SocketAddr, Client>`, embedded as an association
list with unique keys. -/
abbrev Registry := List (Addr × Client)

/-- `self.clients.get(&addr)` / `get_mut`. -/
def lookupClient (a : Addr) (R : Registry) : Option Client :=
  (R.find? (fun p => p.1 == a)).map (·.2)

/-- Mutation of one client through `get_mut`. -/
def updateClient (a : Addr) (f : Client → Client) (R : Registry) : Registry :=
  R.map (fun p => if p.1 == a then (p.1, f p.2) else p)

/-- `HashMap::insert`: replace the value at an existing key, or add the
binding. -/
def insertClient (a : Addr) (c : Client) (R : Registry) : Registry :=
  if (lookupClient a R).isSome then updateClient a (fun _ => c) R else R ++ [(a, c)]

/-- `HashMap::remove`. -/
def removeClient (a : Addr) (R : Registry) : Registry :=
  R.filter (fun p => p.1 != a)

/-- Observable actions of the coordinator: an attempted encrypted write to
a client (`Client::send` / `EncryptedStream::send`), the stderr report of
a failed write, and `EncryptedStream::close` (shutdown of the read side). -/
inductive Effect where
  | send (a : Addr) (txt : String)
  | logSendError (a : Addr)
  | closeRead (a : Addr)
deriving DecidableEq, Repr

/-- `Client::send`: attempt the write; on failure report to stderr and
continue (the error is never propagated).  `ok` is the delivery oracle
saying whether the underlying write succeeds. -/
def clientSend (ok : Addr → String → Bool) (a : Addr) (txt : String) : List Effect :=
  if ok a txt then [.send a txt] else [.send a txt, .logSendError a]

/-- the Rust test `msg.starts_with('/')`: the first character is `'/'`. -/
def startsWithSlash (s : String) : Bool := s.data.head? == some '/'

/-- The static help text sent for `/help` (byte-exact, including the
20-space indentation of the Rust string literal). -/
def helpText : String :=
  "\n                    /quit - quit the chat\n                    /list - list usernames\n                    /help - show this help message"

/-- `ChatServer::handle_chat_msg`.  Panics (`unwrap`, index out of bounds)
are modelled as `Except.error` carrying the panic message. -/
def handle_chat_msg (ok : Addr → String → Bool) (R : Registry) (addr : Addr)
    (msg : String) : Except String (Registry × List Effect) :=
  if msg = "" then .ok (R, [])
  else if startsWithSlash msg then
    match lookupClient addr R with
    | none => .error "called `Option::unwrap()` on a `None` value"
    | some _ =>
      if msg = "/quit" then .ok (R, [.closeRead addr])
      else if msg = "/list" then
        .ok (R, clientSend ok addr "Invalid command. Type /help for help.\n")
      else if msg = "/help" then .ok (R, clientSend ok addr helpText)
      else .ok (R, clientSend ok addr "Invalid command! Type /help for help.\n")
  else
    match lookupClient addr R with
    | none => .error "index out of bounds"
    | some c =>
      match c.username with
      | none => .error "called `Option::unwrap()` on a `None` value"
      | some uname =>
        let chat := uname ++ ": " ++ msg
        .ok (R, R.flatMap (fun p => if p.1 == addr then [] else clientSend ok p.1 chat))

/-- `ChatServer::handle_msg`. -/
def handle_msg (ok : Addr → String → Bool) (R : Registry) (addr : Addr)
    (msg : Message) : Except String (Registry × List Effect) :=
  match msg with
  | .connected =>
    .ok (insertClient addr ⟨none⟩ R, clientSend ok addr "Enter username: ")
  | .disconnected => .ok (removeClient addr R, [])
  | .text txt =>
    match lookupClient addr R with
    | none => .error "Text messages should only come from clients that are known"
    | some c =>
      match c.username with
      | none =>
        let isUnique := (R.find? (fun p => p.2.username == some txt)).isNone
        match lookupClient addr R with
        | none => .error "Text messages should only come from clients that are known"
        | some _ =>
          if !isUnique then
            .ok (R, clientSend ok addr "Username taken!\nEnter username: ")
          else
            .ok (updateClient addr (fun cl => { cl with username := some txt }) R, [])
      | some _ => handle_chat_msg ok R addr txt

/-- Is an `Except` result a non-panicking `ok`? -/
def exceptOk {ε α : Type} : Except ε α → Bool
  | .ok _ => true
  | .error _ => false

/-- The addresses and payloads of the attempted sends among a list of
effects. -/
def sentTo (effs : List Effect) : List (Addr × String) :=
  effs.filterMap (fun e => match e with | .send a t => some (a, t) | _ => none)

/-- A delivery oracle under which every write succeeds. -/
def allOk : Addr → String → Bool := fun _ _ => true

end ChatSpec

namespace ChatSpec

/-! ### Registry lemmas -/

/-- Removing an address makes its lookup fail. -/
theorem lookup_remove_self (a : Addr) (R : Registry) :
    lookupClient a (removeClient a R) = none := by
  unfold lookupClient removeClient
  rw [Option.map_eq_none', List.find?_eq_none]
  intro p hp
  rcases List.mem_filter.mp hp with ⟨-, h2⟩
  simpa using h2

/-- Updating an address is visible to its lookup. -/
theorem lookup_update_self (a : Addr) (f : Client → Client) (R : Registry) :
    lookupClient a (updateClient a f R) = (lookupClient a R).map f := by
  induction R with
  | nil => rfl
  | cons p R ih =>
    cases hb : (p.1 == a) with
    | true => simp [lookupClient, updateClient, List.find?, hb]
    | false => simpa [lookupClient, updateClient, List.find?, hb] using ih

/-- The attempted sends of one `Client::send` are exactly one delivery to
that client, whether or not the underlying write succeeds. -/
theorem sentTo_clientSend (ok : Addr → String → Bool) (a : Addr) (t : String) :
    sentTo (clientSend ok a t) = [(a, t)] := by
  unfold clientSend sentTo
  split <;> rfl

end ChatSpec

namespace ChatSpec

/-! ### The claims -/

/-- Claim C1 (code bug): the spec demands that a short or zero-length
read/write of the fixed-width public-value block makes `establish` fail,
but the source ignores the byte counts returned by `read`/`write`: as long
as the two syscalls nominally succeed, `establish` returns an established
channel, and on a zero-length read the shared secret is derived from the
all-zero buffer. -/
theorem establish_accepts_short_public_value :
    (∀ (priv w n : Nat) (peer : List Nat),
      exceptOk (establish priv ⟨Except.ok w, Except.ok (n, peer)⟩) = true) ∧
    establish 5 ⟨Except.ok 16, Except.ok (0, [])⟩ =
      Except.ok (dhShared (deserialize (List.replicate frameWidth 0)) 5) ∧
    dhShared (deserialize (List.replicate frameWidth 0)) 5 = 0 := by
  refine ⟨fun priv w n peer => rfl, rfl, by decide⟩

/-- Claim C2 (code bug): the read loop of `handle_stream` has no `break`
after emitting `Disconnected`, so the worker does not exit on its first
read failure: a second failure emits a second `Disconnected`, and a
successful read after a failure emits a `Text` event after `Disconnected`
(which the own `expect` assertion of the coordinator declares impossible). -/
theorem worker_keeps_emitting_after_read_failure :
    workerLoopEmits [.ioErr, .ioErr] = [.disconnected, .disconnected] ∧
    workerLoopEmits [.ioErr, .ok "x"] = [.disconnected, .text "x"] ∧
    handleStreamEmits [.ioErr, .ioErr] = [.connected, .disconnected, .disconnected] := by
  refine ⟨rfl, rfl, rfl⟩

/-- Claim C6, counterexample: an empty `Text` handled while the session is
`Unnamed` is not a no-op — the empty string is treated as a username
proposal, and the session transitions to `Named("")`. -/
theorem empty_text_renames_unnamed_session :
    handle_msg allOk [(0, ⟨none⟩)] 0 (.text "") =
      .ok ([(0, ⟨some ""⟩)], []) ∧
    ([(0, (⟨some ""⟩ : Client))] : Registry) ≠ [(0, ⟨none⟩)] := by
  refine ⟨rfl, by decide⟩

/-- Claim C6 (amended): for a session that is already `Named`, handling an
empty `Text` sends nothing and leaves the registry unchanged.  (While
`Unnamed`, the empty string is processed as a username proposal instead.) -/
theorem empty_text_noop_when_named (ok : Addr → String → Bool) (R : Registry)
    (a : Addr) (c : Client) (u : String)
    (h1 : lookupClient a R = some c) (h2 : c.username = some u) :
    handle_msg ok R a (.text "") = .ok (R, []) := by
  simp [handle_msg, h1, h2, handle_chat_msg]

/-- Witness for the amended claim C6 at a concrete registry. -/
theorem empty_text_noop_when_named_witness :
    handle_msg allOk [(7, ⟨some "alice"⟩)] 7 (.text "") =
      .ok ([(7, ⟨some "alice"⟩)], []) :=
  empty_text_noop_when_named allOk [(7, ⟨some "alice"⟩)] 7 ⟨some "alice"⟩ "alice" rfl rfl

/-- Claim C8: `/quit` from a `Named` session only closes the read side of that session — the registry is unchanged and the address is still registered
afterwards; removal happens only when the `Disconnected` event is handled. -/
theorem quit_defers_removal (ok : Addr → String → Bool) (R : Registry)
    (a : Addr) (c : Client) (u : String)
    (h1 : lookupClient a R = some c) (h2 : c.username = some u) :
    handle_msg ok R a (.text "/quit") = .ok (R, [.closeRead a]) ∧
    lookupClient a R = some c ∧
    handle_msg ok R a .disconnected = .ok (removeClient a R, []) ∧
    lookupClient a (removeClient a R) = none := by
  refine ⟨?_, h1, rfl, lookup_remove_self a R⟩
  have hs : startsWithSlash "/quit" = true := by decide
  simp [handle_msg, h1, h2, handle_chat_msg, hs]

/-- Witness for claim C8 at a concrete registry. -/
theorem quit_defers_removal_witness :
    handle_msg allOk [(0, ⟨some "alice"⟩), (1, ⟨none⟩)] 0 (.text "/quit") =
      .ok ([(0, ⟨some "alice"⟩), (1, ⟨none⟩)], [.closeRead 0]) ∧
    lookupClient 0 [(0, (⟨some "alice"⟩ : Client)), (1, ⟨none⟩)] = some ⟨some "alice"⟩ ∧
    handle_msg allOk [(0, ⟨some "alice"⟩), (1, ⟨none⟩)] 0 .disconnected =
      .ok (removeClient 0 [(0, ⟨some "alice"⟩), (1, ⟨none⟩)], []) ∧
    lookupClient 0 (removeClient 0 [(0, (⟨some "alice"⟩ : Client)), (1, ⟨none⟩)]) = none :=
  quit_defers_removal allOk [(0, ⟨some "alice"⟩), (1, ⟨none⟩)] 0 ⟨some "alice"⟩ "alice" rfl rfl

/-- Claim C10: `handle_msg` on a `Text` event panics exactly when the
address of the event is not in the registry; under the precondition that it is
registered, the `expect`, the command-dispatch `unwrap` and the
pre-broadcast username `unwrap` are all unreachable. -/
theorem handle_msg_text_ok_iff_registered (ok : Addr → String → Bool)
    (R : Registry) (a : Addr) (t : String) :
    exceptOk (handle_msg ok R a (.text t)) = (lookupClient a R).isSome := by
  cases h : lookupClient a R with
  | none => simp [handle_msg, h, exceptOk]
  | some c =>
    cases hu : c.username with
    | none =>
      simp only [handle_msg, h, hu, Option.isSome_some]
      split <;> rfl
    | some u =>
      simp only [handle_msg, h, hu, Option.isSome_some]
      unfold handle_chat_msg
      split_ifs <;> simp [h, hu, exceptOk]

end ChatSpec

namespace ChatSpec
/-- Claim C3: a `Text` event received while the session is `Unnamed` is a
username proposal: if any session in the registry already holds exactly
that (case-sensitive) username the session stays `Unnamed` and is sent the
taken prompt; otherwise it transitions to `Named` with exactly the
proposed text and no reply is sent. -/
theorem username_negotiation_correct (ok : Addr → String → Bool) (R : Registry)
    (a : Addr) (c : Client) (t : String)
    (h1 : lookupClient a R = some c) (h2 : c.username = none) :
    ((∃ p ∈ R, p.2.username = some t) →
      handle_msg ok R a (.text t) =
        .ok (R, clientSend ok a "Username taken!\nEnter username: ")) ∧
    ((¬ ∃ p ∈ R, p.2.username = some t) →
      handle_msg ok R a (.text t) =
        .ok (updateClient a (fun cl => { cl with username := some t }) R, []) ∧
      lookupClient a (updateClient a (fun cl => { cl with username := some t }) R) =
        some ⟨some t⟩) := by
  have hiff : (R.find? (fun p => p.2.username == some t)).isSome = true ↔
      ∃ p ∈ R, p.2.username = some t := by
    rw [List.find?_isSome]
    constructor
    · rintro ⟨x, hx, hb⟩; exact ⟨x, hx, by simpa using hb⟩
    · rintro ⟨x, hx, hb⟩; exact ⟨x, hx, by simpa using hb⟩
  constructor
  · intro hex
    cases hf : R.find? (fun p => p.2.username == some t) with
    | none => exact absurd (hiff.mpr hex) (by simp [hf])
    | some x => simp [handle_msg, h1, h2, hf]
  · intro hnex
    have hnone : R.find? (fun p => p.2.username == some t) = none := by
      cases hf : R.find? (fun p => p.2.username == some t) with
      | none => rfl
      | some x => exact absurd (hiff.mp (by simp [hf])) hnex
    refine ⟨by simp [handle_msg, h1, h2, hnone], ?_⟩
    rw [lookup_update_self, h1]
    simp [h2]

/-- Witness for claim C3: `"alice"` is taken, `"bob"` is free. -/
theorem username_negotiation_witness :
    handle_msg allOk [(0, ⟨some "alice"⟩), (1, ⟨none⟩)] 1 (.text "alice") =
      .ok ([(0, ⟨some "alice"⟩), (1, ⟨none⟩)],
        clientSend allOk 1 "Username taken!\nEnter username: ") ∧
    handle_msg allOk [(0, ⟨some "alice"⟩), (1, ⟨none⟩)] 1 (.text "bob") =
      .ok (updateClient 1 (fun cl => { cl with username := some "bob" })
        [(0, ⟨some "alice"⟩), (1, ⟨none⟩)], []) := by
  have hA := username_negotiation_correct allOk [(0, ⟨some "alice"⟩), (1, ⟨none⟩)]
    1 ⟨none⟩ "alice" rfl rfl
  have hB := username_negotiation_correct allOk [(0, ⟨some "alice"⟩), (1, ⟨none⟩)]
    1 ⟨none⟩ "bob" rfl rfl
  exact ⟨hA.1 (by decide), (hB.2 (by decide)).1⟩

/-- The attempted deliveries of the broadcast loop: one per registered
address other than the sender, in registry order, independent of the
delivery oracle. -/
theorem sentTo_broadcast (ok : Addr → String → Bool) (a : Addr) (msg : String)
    (R : Registry) :
    sentTo (R.flatMap (fun p => if p.1 == a then [] else clientSend ok p.1 msg)) =
      (R.filter (fun p => p.1 != a)).map (fun p => (p.1, msg)) := by
  induction R with
  | nil => rfl
  | cons p R ih =>
    cases hb : (p.1 == a) with
    | true =>
      have hne : (p.1 != a) = false := by simp [bne, hb]
      simp only [List.flatMap_cons, sentTo, List.filterMap_append, hb, if_pos,
        List.filter_cons, hne, List.filterMap_nil, List.nil_append]
      exact ih
    | false =>
      have hne : (p.1 != a) = true := by simp [bne, hb]
      simp only [List.flatMap_cons, sentTo, List.filterMap_append, hb, List.filter_cons, hne,
        List.map_cons, Bool.false_eq_true, if_false]
      rw [← sentTo, ← sentTo, sentTo_clientSend, ih]
      rfl

/-- Claim C4: a chat message from a `Named` session is broadcast as
`"{username}: {text}"` to every other registered session (`Named` or
`Unnamed`), never to the sender, the registry is unchanged, and the list
of attempted deliveries is the same for every delivery oracle — a failed
write to one recipient never prevents the remaining deliveries. -/
theorem broadcast_excludes_sender (ok : Addr → String → Bool) (R : Registry)
    (a : Addr) (c : Client) (u : String) (t : String)
    (h1 : lookupClient a R = some c) (h2 : c.username = some u)
    (h3 : t ≠ "") (h4 : startsWithSlash t = false) :
    handle_msg ok R a (.text t) =
      .ok (R, R.flatMap (fun p => if p.1 == a then [] else clientSend ok p.1 (u ++ ": " ++ t))) ∧
    sentTo (R.flatMap (fun p => if p.1 == a then [] else clientSend ok p.1 (u ++ ": " ++ t))) =
      (R.filter (fun p => p.1 != a)).map (fun p => (p.1, u ++ ": " ++ t)) := by
  refine ⟨?_, sentTo_broadcast ok a (u ++ ": " ++ t) R⟩
  simp [handle_msg, h1, h2, handle_chat_msg, h3, h4]

/-- Witness for claim C4: `"alice"` at address 0 says `"hello"`; the other
two sessions (one still unnamed) each get one delivery, the sender none. -/
theorem broadcast_excludes_sender_witness :
    handle_msg allOk [(0, ⟨some "alice"⟩), (1, ⟨none⟩), (2, ⟨some "bob"⟩)] 0 (.text "hello") =
      .ok ([(0, ⟨some "alice"⟩), (1, ⟨none⟩), (2, ⟨some "bob"⟩)],
        [.send 1 "alice: hello", .send 2 "alice: hello"]) ∧
    sentTo [.send 1 "alice: hello", .send 2 "alice: hello"] =
      [(1, "alice: hello"), (2, "alice: hello")] := by
  have h := broadcast_excludes_sender allOk
    [(0, ⟨some "alice"⟩), (1, ⟨none⟩), (2, ⟨some "bob"⟩)] 0 ⟨some "alice"⟩ "alice" "hello"
    rfl rfl (by decide) (by decide)
  exact ⟨h.1, rfl⟩

/-- Claim C7: `/help` from a `Named` session replies with the static help
text (which mentions `/quit`, `/list` and `/help`); `/list` replies with
exactly the period-punctuated invalid-command line; any other unrecognized
slash command replies with the bang-punctuated invalid-command line; the
registry is unchanged in all three cases. -/
theorem slash_command_replies (ok : Addr → String → Bool) (R : Registry)
    (a : Addr) (c : Client) (u : String)
    (h1 : lookupClient a R = some c) (h2 : c.username = some u) :
    handle_msg ok R a (.text "/help") = .ok (R, clientSend ok a helpText) ∧
    List.IsInfix "/quit".data helpText.data ∧
    List.IsInfix "/list".data helpText.data ∧
    List.IsInfix "/help".data helpText.data ∧
    handle_msg ok R a (.text "/list") =
      .ok (R, clientSend ok a "Invalid command. Type /help for help.\n") ∧
    (∀ m : String, startsWithSlash m = true → m ≠ "/quit" → m ≠ "/list" → m ≠ "/help" →
      handle_msg ok R a (.text m) =
        .ok (R, clientSend ok a "Invalid command! Type /help for help.\n")) := by
  refine ⟨?_, ?_, ?_, ?_, ?_, ?_⟩
  · have hs : startsWithSlash "/help" = true := by decide
    simp [handle_msg, h1, h2, handle_chat_msg, hs]
  · exact ⟨"\n                    ".data,
      " - quit the chat\n                    /list - list usernames\n                    /help - show this help message".data,
      by decide⟩
  · exact ⟨"\n                    /quit - quit the chat\n                    ".data,
      " - list usernames\n                    /help - show this help message".data, by decide⟩
  · exact ⟨"\n                    /quit - quit the chat\n                    /list - list usernames\n                    ".data,
      " - show this help message".data, by decide⟩
  · have hs : startsWithSlash "/list" = true := by decide
    simp [handle_msg, h1, h2, handle_chat_msg, hs]
  · intro m hs hq hl hh
    have hne : m ≠ "" := by
      rintro rfl
      exact absurd hs (by decide)
    simp [handle_msg, h1, h2, handle_chat_msg, hs, hne, hq, hl, hh]

/-- Witness for claim C7 at a concrete registry, with `"/foo"` as the
unrecognized command. -/
theorem slash_command_replies_witness :
    handle_msg allOk [(3, ⟨some "alice"⟩)] 3 (.text "/help") =
      .ok ([(3, ⟨some "alice"⟩)], clientSend allOk 3 helpText) ∧
    handle_msg allOk [(3, ⟨some "alice"⟩)] 3 (.text "/list") =
      .ok ([(3, ⟨some "alice"⟩)], clientSend allOk 3 "Invalid command. Type /help for help.\n") ∧
    handle_msg allOk [(3, ⟨some "alice"⟩)] 3 (.text "/foo") =
      .ok ([(3, ⟨some "alice"⟩)], clientSend allOk 3 "Invalid command! Type /help for help.\n") := by
  have h := slash_command_replies allOk [(3, ⟨some "alice"⟩)] 3 ⟨some "alice"⟩ "alice" rfl rfl
  exact ⟨h.1, h.2.2.2.2.1, h.2.2.2.2.2 "/foo" (by decide) (by decide) (by decide) (by decide)⟩

end ChatSpec

namespace ChatSpec

/-! ### Trimming lemmas -/

/-- `trimEnd` is a prefix of its argument. -/
theorem trimEnd_initial_segment (l : List Char) : (trimEnd l) <+: l := by
  unfold trimEnd
  obtain ⟨w, hw⟩ := List.dropWhile_suffix (l := l.reverse) rustIsWhitespace
  refine ⟨w.reverse, ?_⟩
  have := congrArg List.reverse hw
  simpa using this

/-- Any list splits as whitespace, its trim, whitespace. -/
theorem rustTrim_decomposition (cs : List Char) :
    ∃ pre post, cs = pre ++ rustTrim cs ++ post ∧
      pre.all rustIsWhitespace = true ∧ post.all rustIsWhitespace = true := by
  refine ⟨cs.takeWhile rustIsWhitespace,
    ((trimStart cs).reverse.takeWhile rustIsWhitespace).reverse, ?_, ?_, ?_⟩
  · conv_lhs => rw [← List.takeWhile_append_dropWhile (p := rustIsWhitespace) (l := cs)]
    rw [List.append_assoc]
    congr 1
    show trimStart cs = rustTrim cs ++ _
    conv_lhs => rw [← List.reverse_reverse (trimStart cs),
      ← List.takeWhile_append_dropWhile (p := rustIsWhitespace) (l := (trimStart cs).reverse)]
    rw [List.reverse_append]
    rfl
  · rw [List.all_eq_true]
    exact fun x hx => List.mem_takeWhile_imp hx
  · rw [List.all_eq_true]
    intro x hx
    exact List.mem_takeWhile_imp (List.mem_reverse.mp hx)

/-- The head of `dropWhile p` never satisfies `p`. -/
theorem head?_dropWhile_false {α : Type} (p : α → Bool) (l : List α) :
    ∀ x ∈ (l.dropWhile p).head?, p x = false := by
  induction l with
  | nil => simp
  | cons a l ih =>
    intro x hx
    cases hp : p a with
    | true =>
      rw [List.dropWhile_cons, hp, if_pos rfl] at hx
      exact ih x hx
    | false =>
      rw [List.dropWhile_cons, hp, if_neg Bool.false_ne_true] at hx
      simp only [List.head?_cons, Option.mem_def, Option.some.injEq] at hx
      rw [← hx]
      exact hp

/-- The first character surviving the trim is not whitespace. -/
theorem rustTrim_head_not_whitespace (cs : List Char) :
    ∀ x ∈ (rustTrim cs).head?, rustIsWhitespace x = false := by
  intro x hx
  obtain ⟨w, hw⟩ := trimEnd_initial_segment (trimStart cs)
  have hw' : rustTrim cs ++ w = trimStart cs := hw
  have hhead : (trimStart cs).head? = some x := by
    rw [← hw']
    cases h : rustTrim cs with
    | nil => rw [h] at hx; simp at hx
    | cons y ys =>
      rw [h] at hx
      simp only [List.head?_cons, Option.mem_def, Option.some.injEq] at hx
      simp [hx]
  exact head?_dropWhile_false rustIsWhitespace cs x hhead

/-- The last character surviving the trim is not whitespace. -/
theorem rustTrim_getLast_not_whitespace (cs : List Char) :
    ∀ x ∈ (rustTrim cs).getLast?, rustIsWhitespace x = false := by
  intro x hx
  unfold rustTrim trimEnd at hx
  rw [List.getLast?_reverse] at hx
  exact head?_dropWhile_false rustIsWhitespace (trimStart cs).reverse x hx

/-- Claim C5, counterexample: a decrypted frame `" a"` (a leading space,
then `'a'`, then space padding) comes back from `recv` as `"a"` — the
leading whitespace is removed as well, so the result is not the decrypted
sequence with only its trailing whitespace removed. -/
theorem recv_trims_leading_whitespace_too :
    recvFrame 0 ([0x20, 0x61] ++ List.replicate 14 0x20) = some ['a'] ∧
    utf8Decode (decrypt 0 ([0x20, 0x61] ++ List.replicate 14 0x20)) =
      some (' ' :: 'a' :: List.replicate 14 ' ') ∧
    trimEnd (' ' :: 'a' :: List.replicate 14 ' ') = [' ', 'a'] ∧
    (['a'] : List Char) ≠ [' ', 'a'] := by
  refine ⟨by decide, by decide, by decide, by decide⟩

/-- Claim C5 (amended): `recv` decodes a frame by decrypting and then
trimming whitespace from both ends — the returned text is the decrypted
character sequence with its leading and trailing whitespace removed and
everything in between preserved. -/
theorem recv_returns_trimmed_text (key : Nat) (raw : List Nat) (cs : List Char)
    (h : utf8Decode (decrypt key raw) = some cs) :
    recvFrame key raw = some (rustTrim cs) ∧
    (∃ pre post, cs = pre ++ rustTrim cs ++ post ∧
      pre.all rustIsWhitespace = true ∧ post.all rustIsWhitespace = true) ∧
    (∀ x ∈ (rustTrim cs).head?, rustIsWhitespace x = false) ∧
    (∀ x ∈ (rustTrim cs).getLast?, rustIsWhitespace x = false) := by
  refine ⟨?_, rustTrim_decomposition cs, rustTrim_head_not_whitespace cs,
    rustTrim_getLast_not_whitespace cs⟩
  unfold recvFrame
  rw [h]
  rfl

/-- Witness for the amended claim C5 at a concrete frame: the decrypted
bytes read `"ab"` followed by space padding. -/
theorem recv_returns_trimmed_text_witness :
    utf8Decode (decrypt 3 (sendFrame 3 [0x61, 0x62])) =
      some ('a' :: 'b' :: List.replicate 14 ' ') ∧
    recvFrame 3 (sendFrame 3 [0x61, 0x62]) =
      some (rustTrim ('a' :: 'b' :: List.replicate 14 ' ')) := by
  refine ⟨by decide, ?_⟩
  exact (recv_returns_trimmed_text 3 (sendFrame 3 [0x61, 0x62])
    ('a' :: 'b' :: List.replicate 14 ' ') (by decide)).1

end ChatSpec

namespace ChatSpec

/-! ### UTF-8 decoding lemmas -/

/-- `decode1` consumes at least one byte. -/
theorem decode1_consumed : ∀ {l : List Nat} {c : Char} {rest : List Nat},
    decode1 l = some (c, rest) → rest.length < l.length := by
  intro l c rest h
  rcases l with _ | ⟨b, _ | ⟨c1, _ | ⟨c2, _ | ⟨c3, tl⟩⟩⟩⟩
  · simp [decode1] at h
  · simp only [decode1] at h
    split_ifs at h <;> simp_all <;> omega
  · simp only [decode1] at h
    split_ifs at h <;> simp_all <;> omega
  · simp only [decode1] at h
    split_ifs at h <;> simp_all <;> omega
  · simp only [decode1] at h
    split_ifs at h <;> simp_all <;> omega

/-- The fuelled decoder is insensitive to the exact fuel, as long as it is
at least the number of remaining bytes. -/
theorem utf8DecodeAux_fuel : ∀ (fuel : Nat) (l : List Nat) (f2 : Nat), l.length ≤ fuel →
    l.length ≤ f2 → utf8DecodeAux fuel l = utf8DecodeAux f2 l := by
  intro fuel
  induction fuel with
  | zero =>
    intro l f2 hl hl2
    match l with
    | [] => cases f2 <;> rfl
  | succ f ih =>
    intro l f2 hl hl2
    match l with
    | [] => cases f2 <;> rfl
    | b :: bs =>
      match f2 with
      | 0 => simp at hl2
      | f2' + 1 =>
        show (match decode1 (b :: bs) with
          | none => none
          | some (c, rest) => (utf8DecodeAux f rest).map (c :: ·)) =
          (match decode1 (b :: bs) with
          | none => none
          | some (c, rest) => (utf8DecodeAux f2' rest).map (c :: ·))
        cases hd : decode1 (b :: bs) with
        | none => rfl
        | some cr =>
          obtain ⟨c, rest⟩ := cr
          have hlen : rest.length < bs.length + 1 := by simpa using decode1_consumed hd
          simp only [List.length_cons] at hl hl2
          show (utf8DecodeAux f rest).map (c :: ·) = (utf8DecodeAux f2' rest).map (c :: ·)
          rw [ih rest f2' (by omega) (by omega)]

/-- Unfolding lemma for `utf8Decode` on a nonempty list. -/
theorem utf8Decode_cons (b : Nat) (bs : List Nat) :
    utf8Decode (b :: bs) =
      match decode1 (b :: bs) with
      | none => none
      | some (c, rest) => (utf8Decode rest).map (c :: ·) := by
  show (match decode1 (b :: bs) with
    | none => none
    | some (c, rest) => (utf8DecodeAux bs.length rest).map (c :: ·)) = _
  cases hd : decode1 (b :: bs) with
  | none => rfl
  | some cr =>
    obtain ⟨c, rest⟩ := cr
    have hlen : rest.length < bs.length + 1 := by simpa using decode1_consumed hd
    show (utf8DecodeAux bs.length rest).map (c :: ·) = (utf8Decode rest).map (c :: ·)
    rw [utf8DecodeAux_fuel bs.length rest rest.length (by omega) (by omega)]
    rfl

set_option maxHeartbeats 2000000 in
/-- `decode1` only inspects the bytes of the scalar value it consumes, so
appending a tail commutes with it. -/
theorem decode1_append (ys : List Nat) : ∀ {l : List Nat} {c : Char} {rest : List Nat},
    decode1 l = some (c, rest) → decode1 (l ++ ys) = some (c, rest ++ ys) := by
  intro l c rest h
  rcases l with _ | ⟨b, _ | ⟨c1, _ | ⟨c2, _ | ⟨c3, tl⟩⟩⟩⟩
  · simp [decode1] at h
  all_goals
    simp only [decode1] at h
    simp only [List.cons_append, List.nil_append, decode1]
    split_ifs at h ⊢ <;>
      first
        | (simp only [Option.some.injEq, Prod.mk.injEq] at h
           obtain ⟨h1, h2⟩ := h
           subst h1
           subst h2
           simp)
        | simp at h

/-- Decoding distributes over append when the first part is valid. -/
theorem utf8DecodeAux_append : ∀ (fuel : Nat) (l : List Nat) (cs : List Char) (ys : List Nat),
    l.length ≤ fuel → utf8DecodeAux fuel l = some cs →
    utf8Decode (l ++ ys) = (utf8Decode ys).map (cs ++ ·) := by
  intro fuel
  induction fuel with
  | zero =>
    intro l cs ys hl h
    match l with
    | [] =>
      simp only [utf8DecodeAux, Option.some.injEq] at h
      subst h
      simp
  | succ f ih =>
    intro l cs ys hl h
    match l with
    | [] =>
      simp only [utf8DecodeAux, Option.some.injEq] at h
      subst h
      simp
    | b :: bs =>
      simp only [utf8DecodeAux] at h
      cases hd : decode1 (b :: bs) with
      | none => rw [hd] at h; cases h
      | some cr =>
        obtain ⟨c, rest⟩ := cr
        rw [hd] at h
        obtain ⟨cs', h', rfl⟩ := Option.map_eq_some'.mp h
        have hlen : rest.length < bs.length + 1 := by simpa using decode1_consumed hd
        simp only [List.length_cons] at hl
        have hd2 := decode1_append ys hd
        rw [List.cons_append] at hd2
        rw [List.cons_append, utf8Decode_cons, hd2]
        show (utf8Decode (rest ++ ys)).map (c :: ·) = _
        rw [ih rest cs' ys (by omega) h']
        cases utf8Decode ys <;> simp

/-- Decoding distributes over append when the first part is valid. -/
theorem utf8Decode_append (l : List Nat) (cs : List Char) (ys : List Nat)
    (h : utf8Decode l = some cs) :
    utf8Decode (l ++ ys) = (utf8Decode ys).map (cs ++ ·) :=
  utf8DecodeAux_append l.length l cs ys (Nat.le_refl _) h

/-- A run of space bytes decodes to a run of space characters. -/
theorem utf8Decode_replicate_space (k : Nat) :
    utf8Decode (List.replicate k 0x20) = some (List.replicate k ' ') := by
  induction k with
  | zero => rfl
  | succ n ih =>
    rw [List.replicate_succ, utf8Decode_cons]
    have hd : decode1 (0x20 :: List.replicate n 0x20) =
        some (' ', List.replicate n 0x20) := rfl
    rw [hd]
    show (utf8Decode (List.replicate n 0x20)).map (' ' :: ·) = _
    rw [ih, List.replicate_succ]
    rfl

end ChatSpec

namespace ChatSpec

/-! ### Frame round-trip lemmas -/

/-- The modelled byte transform is inverted by its decryption. -/
theorem byte_transform_roundtrip (key b : Nat) (hb : b < 256) :
    ((b + key) % 256 + (256 - key % 256)) % 256 = b := by
  omega

/-- Decrypting an encrypted frame recovers the plaintext, truncated to the
frame width and padded with trailing spaces. -/
theorem decrypt_encrypt (key : Nat) (msg : List Nat) (h : msg.all (· < 256) = true) :
    decrypt key (encrypt key msg) =
      msg.take frameWidth ++ List.replicate (frameWidth - msg.length) 0x20 := by
  unfold decrypt encrypt
  rw [List.map_map]
  have hall : ∀ b ∈ msg.take frameWidth ++ List.replicate (frameWidth - msg.length) 0x20,
      b < 256 := by
    intro b hb
    rcases List.mem_append.mp hb with hmem | hmem
    · simpa using List.all_eq_true.mp h b (List.mem_of_mem_take hmem)
    · rw [List.eq_of_mem_replicate hmem]; omega
  calc (msg.take frameWidth ++ List.replicate (frameWidth - msg.length) 0x20).map
        ((fun b => (b + (256 - key % 256)) % 256) ∘ fun b => (b + key) % 256)
      = (msg.take frameWidth ++ List.replicate (frameWidth - msg.length) 0x20).map id := by
        refine List.map_congr_left fun b hb => ?_
        exact byte_transform_roundtrip key b (hall b hb)
    _ = _ := List.map_id _

/-- Dropping whitespace from the front of an all-space run yields nothing. -/
theorem dropWhile_replicate_space (k : Nat) :
    List.dropWhile rustIsWhitespace (List.replicate k ' ') = [] := by
  rw [List.dropWhile_replicate]
  simp [rustIsWhitespace]

/-- Appended trailing spaces do not change `trimEnd`. -/
theorem trimEnd_append_spaces (l : List Char) (k : Nat) :
    trimEnd (l ++ List.replicate k ' ') = trimEnd l := by
  unfold trimEnd
  rw [List.reverse_append, List.reverse_replicate, List.dropWhile_append,
    dropWhile_replicate_space]
  simp

/-- Appended trailing spaces do not change `rustTrim`. -/
theorem rustTrim_append_spaces (cs : List Char) (k : Nat) :
    rustTrim (cs ++ List.replicate k ' ') = rustTrim cs := by
  unfold rustTrim trimStart
  rw [List.dropWhile_append]
  cases he : (List.dropWhile rustIsWhitespace cs).isEmpty with
  | true =>
    rw [if_pos rfl, dropWhile_replicate_space]
    rw [List.isEmpty_iff.mp he]
  | false =>
    rw [if_neg (by simp [he])]
    exact trimEnd_append_spaces _ k

/-- Claim C9, counterexample: the two-byte sequence `" a"` (space then
`'a'`, length 2 ≤ 16) round-trips through `send` and `recv` to `"a"`, not
to `" a"`: the leading space is lost even though only trailing-whitespace
trimming is permitted by the claim. -/
theorem roundtrip_loses_leading_whitespace :
    sendRecv 7 [0x20, 0x61] = some ['a'] ∧
    trimEnd [' ', 'a'] = [' ', 'a'] ∧
    (['a'] : List Char) ≠ [' ', 'a'] := by
  refine ⟨by decide, by decide, by decide⟩

/-- Claim C9 (amended): for every byte sequence no longer than the frame
width that decodes as text, sending it through `send` and decoding through
`recv` over the same shared secret returns the original sequence modulo
whitespace trimming at both ends (the Rust function `str::trim`). -/
theorem sendRecv_roundtrip_modulo_trim (key : Nat) (msg : List Nat) (cs : List Char)
    (h1 : msg.length ≤ frameWidth) (h2 : msg.all (· < 256) = true)
    (h3 : utf8Decode msg = some cs) :
    sendRecv key msg = some (rustTrim cs) := by
  unfold sendRecv recvFrame sendFrame
  rw [decrypt_encrypt key msg h2, List.take_of_length_le h1,
    utf8Decode_append msg cs _ h3, utf8Decode_replicate_space]
  show some (rustTrim (cs ++ List.replicate (frameWidth - msg.length) ' ')) = _
  rw [rustTrim_append_spaces]

/-- Witness for the amended claim C9: `"hi"` (bytes `[0x68, 0x69]`)
round-trips to `rustTrim "hi" = "hi"`. -/
theorem sendRecv_roundtrip_modulo_trim_witness :
    sendRecv 7 [0x68, 0x69] = some (rustTrim ['h', 'i']) ∧
    rustTrim ['h', 'i'] = ['h', 'i'] := by
  refine ⟨?_, by decide⟩
  exact sendRecv_roundtrip_modulo_trim 7 [0x68, 0x69] ['h', 'i']
    (by decide) (by decide) (by decide)

end ChatSpec
